import Mathlib

/-!
Verification development for the jsonmatch library (Go). The definitions
below are shallow embeddings of the Go source: `Region`/`Regions` from
regions.go, the per-variable bodies of `processIndex` and `processSlice`
from match.go, the reference structures and their `Delete` methods and
`MatchSet` from the reference-algebra and facade files, and
`MapRef.Values`. Go `int` is modelled as `Int` (no claim here depends on
64-bit wraparound), Go slices as `List`, Go maps as association lists, and
Go functions that can panic return a `GoResult` that distinguishes normal
returns, error returns and panics.
-/

/-- Document values: the canonical dynamically-typed tree (scalars, arrays
as `List`, string-keyed maps as association lists). A Go `nil` interface
value and JSON null are both `vNull`. Floating scalars are elided: no claim
in this development inspects numeric contents. -/
inductive Value where
  | vNull : Value
  | vBool (b : Bool) : Value
  | vInt (n : Int) : Value
  | vStr (s : String) : Value
  | vArr (items : List Value) : Value
  | vMap (entries : List (String × Value)) : Value

/-- Go result channel of a call: a normal return, an error return, or a
panic with the panic message. -/
inductive GoResult (α : Type) where
  | ok (a : α) : GoResult α
  | err (msg : String) : GoResult α
  | panics (msg : String) : GoResult α
deriving DecidableEq

/-- Region is a half-open interval of array indices, from regions.go:
`type Region struct { Start int; End int }`. -/
structure Region where
  Start : Int
  End : Int
deriving DecidableEq, Repr

/-- Len returns the number of items in the region (regions.go `Region.Len`). -/
def Region.Len (r : Region) : Int :=
  r.End - r.Start

/-- Empty is true if the region covers no items (regions.go `Region.Empty`). -/
def Region.Empty (r : Region) : Bool :=
  r.Len == 0

/-- ContainsIndex is true if the index is covered by the region
(regions.go `Region.ContainsIndex`). -/
def Region.ContainsIndex (r : Region) (index : Int) : Bool :=
  decide (index ≥ r.Start) && decide (index < r.End)

/-- Shift moves the entire region (regions.go `Region.Shift`). -/
def Region.Shift (r : Region) (diff : Int) : Region :=
  { Start := r.Start + diff, End := r.End + diff }

/-- Shrink the region from the right, but never below zero length
(regions.go `Region.Shrink`). -/
def Region.Shrink (r : Region) (count : Int) : Region :=
  if count ≥ r.Len then { Start := r.Start, End := r.Start }
  else { Start := r.Start, End := r.End - count }

/-- Grow extends the region to the right (regions.go `Region.Grow`). -/
def Region.Grow (r : Region) (count : Int) : Region :=
  { Start := r.Start, End := r.End + count }

/-- Overlap, verbatim from regions.go `Region.Overlap`: the four-way
disjunction of the Go source. -/
def Region.Overlap (r other : Region) : Bool :=
  (decide (other.Start ≥ r.Start) && decide (other.Start < r.End)) ||
  (decide (other.End > r.Start) && decide (other.End < r.End)) ||
  (decide (other.Start < r.Start) && decide (other.End > r.Start)) ||
  (decide (r.Start < other.Start) && decide (r.End > other.Start))

/-- Equal is true if the two regions are exactly the same (regions.go
`Region.Equal`). -/
def Region.Equal (r other : Region) : Bool :=
  decide (r.Start = other.Start) && decide (r.End = other.End)

/-- Join returns the smallest region covering both regions, spanning any
gap (regions.go `Region.Join`). -/
def Region.Join (r other : Region) : Region :=
  { Start := if r.Start < other.Start then r.Start else other.Start,
    End := if r.End > other.End then r.End else other.End }

/-- Cut returns the new position and size of this region as if `other` was
cut from the underlying array, with the exact branch structure of
regions.go `Region.Cut` (each Go branch returns, so the sequence of `if`s
is an `if`-`else` chain). -/
def Region.Cut (r other : Region) : Region :=
  if other.End < r.Start then r.Shift (-other.Len)
  else if other.Start ≥ r.End then r
  else if other.Start ≥ r.Start ∧ other.End ≥ r.End then
    { Start := r.Start, End := other.Start }
  else if other.Start ≤ r.Start ∧ other.End > r.End then
    { Start := other.Start, End := other.Start }
  else if other.Start ≤ r.Start ∧ other.End > r.Start then
    { Start := other.Start, End := other.Start + r.Len - (other.End - r.Start) }
  else r.Shrink other.Len

/-- Regions is a sequence of regions (regions.go `type Regions []Region`). -/
abbrev Regions := List Region

/-- Check validates that the region set is sorted and non-overlapping,
with the watermark starting at 0 (regions.go `Regions.Check`). -/
def Regions.Check (rs : Regions) : Bool :=
  (rs.foldl
    (fun acc r =>
      match acc with
      | none => none
      | some watermark => if r.Start < watermark then none else some r.End)
    (some 0)).isSome

/-- CheckSorted validates that the regions are sorted by `Start`, with the
watermark starting at 0 (regions.go `Regions.CheckSorted`). -/
def Regions.CheckSorted (rs : Regions) : Bool :=
  (rs.foldl
    (fun acc r =>
      match acc with
      | none => none
      | some watermark => if r.Start < watermark then none else some r.Start)
    (some 0)).isSome

/-- Specification helper: region `r` covers index `i` (same predicate as
`Region.ContainsIndex`, kept separate as the semantic yardstick). -/
def inReg (r : Region) (i : Int) : Bool :=
  decide (r.Start ≤ i) && decide (i < r.End)

/-- Specification helper: does some region of the set cover index `i`?
This is the pure coverage semantics of a region set (no sortedness
assumption, unlike the short-circuiting Go `Regions.ContainsIndex`). -/
def Regions.covers (rs : Regions) (i : Int) : Bool :=
  rs.any (fun r => inReg r i)

/-- Coverage of the `next` buffer of the Union loop (a `*Region` in Go,
`nil` when empty). -/
def optCovers (next : Option Region) (i : Int) : Bool :=
  match next with
  | none => false
  | some r => inReg r i

/-- The main loop of regions.go `Regions.Union`, with the loop state made
explicit: `next` is the region being built (Go's `next *Region`, `none`
for `nil`), `l` and `r` are the unconsumed remainders of `leftSet` and
`rightSet`. Each equation is one pass of the Go `for` loop: with `next`
empty the side with the smaller `Start` is consumed (ties go to the right
set); with `next` occupied the left head is tried first (join on overlap,
drop on equality), then the right head, and if neither can build on `next`
it is flushed to the result. When one side is exhausted with `next` empty
the other side is flushed wholesale. -/
def Regions.unionLoop : Option Region → List Region → List Region → List Region
  | none, [], r => r
  | none, a :: l, [] => a :: l
  | none, a :: l, b :: r =>
      if a.Start < b.Start then Regions.unionLoop (some a) l (b :: r)
      else Regions.unionLoop (some b) (a :: l) r
  | some n, [], [] => [n]
  | some n, [], b :: r =>
      if n.Overlap b then Regions.unionLoop (some (n.Join b)) [] r
      else if n.Equal b then Regions.unionLoop (some n) [] r
      else n :: Regions.unionLoop none [] (b :: r)
  | some n, a :: l, [] =>
      if n.Overlap a then Regions.unionLoop (some (n.Join a)) l []
      else if n.Equal a then Regions.unionLoop (some n) l []
      else n :: a :: l
  | some n, a :: l, b :: r =>
      if n.Overlap a then Regions.unionLoop (some (n.Join a)) l (b :: r)
      else if n.Equal a then Regions.unionLoop (some n) l (b :: r)
      else if n.Overlap b then Regions.unionLoop (some (n.Join b)) (a :: l) r
      else if n.Equal b then Regions.unionLoop (some n) (a :: l) r
      else n :: Regions.unionLoop none (a :: l) (b :: r)
termination_by next l r => 2 * (l.length + r.length) + (if next.isSome then 1 else 0)
decreasing_by all_goals simp [Option.isSome] <;> omega

/-- Union computes the union of two region sets (regions.go
`Regions.Union`), including the two empty-set short circuits at the top of
the Go function. -/
def Regions.Union (rs otherRegions : Regions) : Regions :=
  if rs.isEmpty then otherRegions
  else if otherRegions.isEmpty then rs
  else Regions.unionLoop none rs otherRegions

/-- Index normalization of match.go `processIndex`: the Go statement
`if index < 0 { index += len(value) }` applied to the node value. -/
def normIdx (n : Nat) (v : Int) : Int :=
  if v < 0 then v + n else v

/-- The per-variable body of match.go `processIndex`: the regions selected
on one Var that canonicalizes to an array of length `n` when the index
node carries value `v`. `none` means the variable contributes no array
reference (the branch that silently drops out-of-range indices). -/
def processIndexOne (n : Nat) (v : Int) : Option Region :=
  if n = 0 ∧ (v = 0 ∨ v = -1) then some { Start := 0, End := 0 }
  else
    let index := normIdx n v
    if index ≥ 0 ∧ index < (n : Int) then some { Start := index, End := index + 1 }
    else none

/-- A variable reference (reference algebra `VarRef`): the getter/setter
closures are lens state handled explicitly by the operations below, so
only the identity string is carried here. -/
structure VarRef where
  identity : String
deriving DecidableEq

/-- A reference to a subset of a map (reference algebra `MapRef`). -/
structure MapRef where
  variable_ : VarRef
  keys : List String
deriving DecidableEq

/-- A reference to a subset of an array (reference algebra `ArrayRef`). -/
structure ArrayRef where
  variable_ : VarRef
  selection : Regions
deriving DecidableEq

/-- A literal value wrapper (reference algebra `LiteralRef`). -/
structure LiteralRef where
  value : Value

/-- A reference to a key path in a map that does not exist yet (reference
algebra `LatentMapRef`). The Go `root` field is a Ref whose individual
members must be MapRefs; it is modelled as that list of MapRefs. -/
structure LatentMapRef where
  root : List MapRef
  keyPath : List String
deriving DecidableEq

/-- The Ref variants the MatchSet facade dispatches on (the concrete
implementations of the Go `Ref` interface). -/
inductive Ref where
  | array (r : ArrayRef) : Ref
  | map (r : MapRef) : Ref
  | varRef (r : VarRef) : Ref
  | literal (value : Value) : Ref
  | latent (r : LatentMapRef) : Ref
  | union (refs : List Ref) : Ref

/-- The Go `%T` rendering of each concrete Ref type, as it appears in the
MutateRegions error message. -/
def Ref.typeName : Ref → String
  | .array _ => "*jsonmatch.ArrayRef"
  | .map _ => "*jsonmatch.MapRef"
  | .varRef _ => "*jsonmatch.VarRef"
  | .literal _ => "*jsonmatch.LiteralRef"
  | .latent _ => "*jsonmatch.LatentMapRef"
  | .union _ => "*jsonmatch.UnionRef"

/-- Delete on a VarRef (reference algebra `VarRef.Delete`): always an
error return. -/
def VarRef.Delete (_ : VarRef) : GoResult Unit :=
  .err "Delete not supported for VarRefs"

/-- Delete on a LiteralRef (reference algebra `LiteralRef.Delete`): the Go
method body is a panic. -/
def LiteralRef.Delete (_ : LiteralRef) : GoResult Unit :=
  .panics "Attempt to delete LiteralRef"

/-- Delete on a LatentMapRef (reference algebra `LatentMapRef.Delete`):
the Go method body is `return nil`, a silent no-op success. -/
def LatentMapRef.Delete (_ : LatentMapRef) : GoResult Unit :=
  .ok ()

/-- AddKey appends a key to the key path of a LatentMapRef. The Go method
has a pointer receiver and assigns `r.keyPath = append(r.keyPath, key)`,
mutating the receiver in place; the embedding returns the state of the
receiver after the call. -/
def LatentMapRef.AddKey (r : LatentMapRef) (key : String) : LatentMapRef :=
  { r with keyPath := r.keyPath ++ [key] }

/-- The latent-reference arm of match.go `processFieldSelection` (the loop
`for latent := range latentMapRefs(input) { latent.AddKey(name); results =
results.Union(latent) }`) for an input that is a single LatentMapRef.
Because `AddKey` mutates through the pointer, the object reachable from
the caller's input and the object placed in the result are the same
mutated latent reference; the embedding returns that pair explicitly:
first the post-call state of the input object, then the reference that
enters the result union. -/
def processFieldSelectionLatent (input : LatentMapRef) (name : String) :
    LatentMapRef × LatentMapRef :=
  let mutatedLatent := input.AddKey name
  (mutatedLatent, mutatedLatent)

/-- Go map indexing on a canonical map: `current[key]` yields the stored
value, or the nil interface (`vNull`) when the key is absent. -/
def mapIndex (current : List (String × Value)) (key : String) : Value :=
  match current.find? (fun p => p.1 == key) with
  | some p => p.2
  | none => Value.vNull

/-- Discriminator for the Go `val != nil` test. -/
def Value.isNull : Value → Bool
  | .vNull => true
  | _ => false

/-- The key loop of reference algebra `MapRef.Values`: walk the selected
keys in order and keep the looked-up value whenever it is not nil. -/
def mapValuesLoop (current : List (String × Value)) : List String → List Value
  | [] => []
  | key :: rest =>
      let val := mapIndex current key
      if val.isNull then mapValuesLoop current rest
      else val :: mapValuesLoop current rest

/-- Values on a MapRef (reference algebra `MapRef.Values`). `current` is
the canonical map value of the underlying variable (Go reads it through
`r.variable.CanonicalValue()`). -/
def MapRef.Values (r : MapRef) (current : List (String × Value)) : List Value :=
  mapValuesLoop current r.keys

/-- MatchSet facade state (facade file `MatchSet`): the matched reference
and the one-shot mutation flag. The root Var's document cell is threaded
explicitly through the operations (its getter/setter closures). -/
structure MatchSet where
  mutated : Bool
  ref : Ref

/-- Values on a MatchSet (facade `MatchSet.Values`): the Go method panics
when the set has already been mutated, otherwise it returns
`e.ref.Values()`, passed in here as `refValues`. -/
def MatchSet.Values (e : MatchSet) (refValues : List Value) : GoResult (List Value) :=
  if e.mutated then .panics "Values are not availible after extract has been mutated"
  else .ok refValues

/-- Set on a MatchSet (facade `MatchSet.Set`): error when already mutated,
otherwise delegate to `e.ref.Set` (outcome `refSetErr`), mark the set
mutated on success and return the root value. The second component is the
post-call MatchSet state. -/
def MatchSet.Set (e : MatchSet) (refSetErr : Option String) (rootValue : Value) :
    GoResult Value × MatchSet :=
  if e.mutated then (.err "This extract has allready mutated once", e)
  else
    match refSetErr with
    | some msg => (.err msg, e)
    | none => (.ok rootValue, { e with mutated := true })

/-- Delete on a MatchSet (facade `MatchSet.Delete`): same one-shot guard
around `e.ref.Delete` (outcome `refDeleteErr`). -/
def MatchSet.Delete (e : MatchSet) (refDeleteErr : Option String) (rootValue : Value) :
    GoResult Value × MatchSet :=
  if e.mutated then (.err "This extract has allready mutated once", e)
  else
    match refDeleteErr with
    | some msg => (.err msg, e)
    | none => (.ok rootValue, { e with mutated := true })

/-- Mutate on a MatchSet (facade `MatchSet.Mutate`): same one-shot guard
around `e.ref.Mutate(mutator)` (outcome `refMutateErr`). -/
def MatchSet.Mutate (e : MatchSet) (refMutateErr : Option String) (rootValue : Value) :
    GoResult Value × MatchSet :=
  if e.mutated then (.err "This extract has allready mutated once", e)
  else
    match refMutateErr with
    | some msg => (.err msg, e)
    | none => (.ok rootValue, { e with mutated := true })

/-- The UnionRef arm of the type switch in facade `MatchSet.MutateRegions`:
every member must be an ArrayRef, otherwise a typed error naming the
offending reference kind is returned. -/
def collectUnionArrayRefs : List Ref → Except String (List ArrayRef)
  | [] => .ok []
  | r :: rest =>
      match r with
      | .array a =>
          match collectUnionArrayRefs rest with
          | .ok l => .ok (a :: l)
          | .error msg => .error msg
      | other =>
          .error ("Cannot mutate regions of a " ++ other.typeName ++
            " ref. All selected values must be array members")

/-- The full type switch of facade `MatchSet.MutateRegions` that gathers
the array references to mutate. The Go switch has only the `*ArrayRef` and
`*UnionRef` cases; for every other reference kind `arrayRefs` stays nil. -/
def MatchSet.extractArrayRefs : Ref → Except String (List ArrayRef)
  | .array t => .ok [t]
  | .union refs => collectUnionArrayRefs refs
  | _ => .ok []

/-- The mutation loop of facade `MatchSet.MutateRegions`
(`for _, ref := range arrayRefs { if err := ref.MutateRegions(mutator) …`):
`mutate1` abstracts one `ArrayRef.MutateRegions` call as a transformer of
the root document (the splice itself writes back through the Var lens). -/
def applyRegionMutations (mutate1 : ArrayRef → Value → Except String Value) :
    List ArrayRef → Value → Except String Value
  | [], doc => .ok doc
  | a :: rest, doc =>
      match mutate1 a doc with
      | .error msg => .error msg
      | .ok doc2 => applyRegionMutations mutate1 rest doc2

/-- MutateRegions on a MatchSet (facade `MatchSet.MutateRegions`): the
one-shot guard, the type switch collecting array refs, the mutation loop,
then mark mutated and return the root value. `doc` is the current root
document; the second component is the post-call MatchSet state. -/
def MatchSet.MutateRegions (e : MatchSet)
    (mutate1 : ArrayRef → Value → Except String Value) (doc : Value) :
    GoResult Value × MatchSet :=
  if e.mutated then (.err "This extract has allready mutated once", e)
  else
    match MatchSet.extractArrayRefs e.ref with
    | .error msg => (.err msg, e)
    | .ok arrayRefs =>
        match applyRegionMutations mutate1 arrayRefs doc with
        | .error msg => (.err msg, e)
        | .ok doc2 => (.ok doc2, { e with mutated := true })

/-! ### Helper lemmas -/

/-- Two regions related by the Go `Equal` method are equal. -/
lemma Region.eq_of_equal {r other : Region} (h : r.Equal other = true) : r = other := by
  cases r; cases other
  simp [Region.Equal] at h
  simp [h.1, h.2]

/-- When two regions overlap (in the sense of the Go `Overlap` method),
their `Join` covers exactly the indices one of them covers. -/
lemma inReg_join {n a : Region} (h : n.Overlap a = true) (i : Int) :
    inReg (n.Join a) i = (inReg n i || inReg a i) := by
  rcases n with ⟨ns, ne⟩; rcases a with ⟨as_, ae⟩
  simp only [Region.Overlap, Bool.or_eq_true, Bool.and_eq_true,
    decide_eq_true_eq] at h
  simp only [inReg, Region.Join]
  rw [Bool.eq_iff_iff]
  simp only [Bool.or_eq_true, Bool.and_eq_true, decide_eq_true_eq]
  split_ifs <;> omega

/-- Go `Equal` coincides with equality of regions. -/
lemma Region.equal_iff {r other : Region} : r.Equal other = true ↔ r = other := by
  cases r; cases other
  simp [Region.Equal, Region.mk.injEq]

/-- Coverage invariant of the Union loop: at every state, the indices
covered by the eventual output are exactly those covered by the `next`
buffer and the two unconsumed sides. Joins happen only on overlap, so no
step can add or lose coverage. -/
lemma unionLoop_covers (next : Option Region) (l r : List Region) (i : Int) :
    Regions.covers (Regions.unionLoop next l r) i =
      (optCovers next i || Regions.covers l i || Regions.covers r i) := by
  induction next, l, r using Regions.unionLoop.induct <;>
    simp_all [Regions.unionLoop, optCovers, Regions.covers, inReg_join,
      Region.equal_iff, Bool.or_assoc, Bool.or_comm, Bool.or_left_comm] <;>
    (rw [if_neg (by omega)];
     simp_all [Bool.or_assoc, Bool.or_comm, Bool.or_left_comm])

/-- Coverage of `Regions.Union`: the output covers an index exactly when
one of the operands covers it (no sortedness hypotheses needed, since
joins happen only on overlap and flushes move regions unchanged). -/
lemma Union_covers (A B : Regions) (i : Int) :
    Regions.covers (Regions.Union A B) i = (Regions.covers A i || Regions.covers B i) := by
  unfold Regions.Union
  split_ifs with h1 h2
  · rw [List.isEmpty_iff.mp h1]; simp [Regions.covers]
  · rw [List.isEmpty_iff.mp h2]; simp [Regions.covers]
  · rw [unionLoop_covers]; simp [optCovers]

/-! ### The claims -/

/-- Claim C1, counterexample. The claim states that after a successful
mutating operation every subsequent call, including `Values`, fails by
returning an "already mutated" error and does not panic. In the code,
`MatchSet.Values` panics when the set has been mutated (its Go signature
has no error channel at all): after a successful `Set`, `Values` returns
the panic outcome, not an error return. -/
theorem values_after_mutation_panics :
    MatchSet.Values (MatchSet.Set ⟨false, Ref.literal Value.vNull⟩ none Value.vNull).2 [] =
      .panics "Values are not availible after extract has been mutated" ∧
    MatchSet.Values (MatchSet.Set ⟨false, Ref.literal Value.vNull⟩ none Value.vNull).2 [] ≠
      .err "This extract has allready mutated once" := by
  constructor
  · rfl
  · simp [MatchSet.Values, MatchSet.Set]

/-- Claim C1, amended: after a successful mutating operation (shown here
for a successful `Set`), every subsequent `Set`, `Delete`, `Mutate` and
`MutateRegions` fails with the "already mutated" error, while `Values`
panics with its "not availible after mutation" message instead of
returning an error. -/
theorem matchSet_one_shot_behavior (ref : Ref) (rootValue w : Value)
    (sErr dErr mErr : Option String) (refValues : List Value)
    (mutate1 : ArrayRef → Value → Except String Value) (doc : Value) :
    (MatchSet.Set ⟨false, ref⟩ none rootValue).1 = .ok rootValue ∧
    ((MatchSet.Set ⟨false, ref⟩ none rootValue).2).mutated = true ∧
    (MatchSet.Set (MatchSet.Set ⟨false, ref⟩ none rootValue).2 sErr w).1 =
      .err "This extract has allready mutated once" ∧
    (MatchSet.Delete (MatchSet.Set ⟨false, ref⟩ none rootValue).2 dErr w).1 =
      .err "This extract has allready mutated once" ∧
    (MatchSet.Mutate (MatchSet.Set ⟨false, ref⟩ none rootValue).2 mErr w).1 =
      .err "This extract has allready mutated once" ∧
    (MatchSet.MutateRegions (MatchSet.Set ⟨false, ref⟩ none rootValue).2 mutate1 doc).1 =
      .err "This extract has allready mutated once" ∧
    MatchSet.Values (MatchSet.Set ⟨false, ref⟩ none rootValue).2 refValues =
      .panics "Values are not availible after extract has been mutated" :=
  ⟨rfl, rfl, rfl, rfl, rfl, rfl, rfl⟩

/-- Claim C2 (code bug). The claim — and the Go doc comment on
`MatchSet.MutateRegions` — say that using the method on a selection with
non-array members returns an error. The type switch has cases only for
`*ArrayRef` and `*UnionRef`, so with a selection that is a single
non-array reference (here: any MapRef) the method silently succeeds: it
returns the unchanged document, no error, never invokes any mutator, and
marks the MatchSet mutated. -/
theorem mutateRegions_single_nonarray_silently_succeeds
    (m : MapRef) (mutate1 : ArrayRef → Value → Except String Value) (doc : Value) :
    MatchSet.MutateRegions ⟨false, Ref.map m⟩ mutate1 doc = (.ok doc, ⟨true, Ref.map m⟩) :=
  rfl

/-- Claim C3: the per-variable index selection. On an array of length `n`,
index value `v` selects the zero-length seam `[0,0)` when `n = 0` and `v`
is `0` or `-1`; otherwise the index is normalized by adding `n` when
negative, selects nothing when the normalized index is outside `[0,n)`,
and selects exactly the one-element region `[v', v'+1)` when in range. -/
theorem processIndex_selection_spec (n : Nat) (v : Int) :
    (n = 0 → (v = 0 ∨ v = -1) → processIndexOne n v = some { Start := 0, End := 0 }) ∧
    (¬(n = 0 ∧ (v = 0 ∨ v = -1)) →
      ((normIdx n v < 0 ∨ (n : Int) ≤ normIdx n v) → processIndexOne n v = none) ∧
      (0 ≤ normIdx n v → normIdx n v < (n : Int) →
        processIndexOne n v = some { Start := normIdx n v, End := normIdx n v + 1 })) := by
  constructor
  · intro h1 h2
    simp [processIndexOne, h1, h2]
  · intro h
    rw [processIndexOne, if_neg h]
    constructor
    · intro hout
      rw [if_neg (by omega)]
    · intro h0 hn
      rw [if_pos (by omega)]

/-- Claim C3, witness: concrete instances of each branch of the index
selection theorem. -/
theorem processIndex_selection_spec_witness :
    processIndexOne 0 (-1) = some { Start := 0, End := 0 } ∧
    processIndexOne 5 7 = none :=
  ⟨(processIndex_selection_spec 0 (-1)).1 rfl (Or.inr rfl),
   ((processIndex_selection_spec 5 7).2 (by simp)).1 (by decide)⟩

/-- Claim C5 (code bug). The claim — and the documented semantics of
`Region.Cut` — require a region `other` lying fully before the receiver,
including the adjacent case `other.End = r.Start`, to shift the receiver
left by `other.Len()`. The Go comparison is strict (`other.End < r.Start`),
so the adjacent cut of `[3,5)` from `[5,7)` falls through every guarded
branch into the final "fully inside, so it just shrinks" fallback and
yields the collapsed region `[5,5)` instead of the shifted `[3,5)`. -/
theorem cut_adjacent_before_shrinks :
    Region.Cut { Start := 5, End := 7 } { Start := 3, End := 5 } = { Start := 5, End := 5 } ∧
    Region.Cut { Start := 5, End := 7 } { Start := 3, End := 5 } ≠
      Region.Shift { Start := 5, End := 7 } (-(Region.Len { Start := 3, End := 5 })) := by
  decide

/-- Claim C6, counterexample. The claim states a zero-length region never
overlaps with anything, in either argument position. The zero-length
region `[5,5)` lies strictly inside `[4,6)` and `Overlap` returns true in
both argument orders (pinned by the Go test `TestOverlap`). -/
theorem zero_length_overlap_counterexample :
    Region.Overlap { Start := 4, End := 6 } { Start := 5, End := 5 } = true ∧
    Region.Overlap { Start := 5, End := 5 } { Start := 4, End := 6 } = true := by
  decide

/-- Claim C6, amended: the exact overlap behavior of zero-length regions.
With `z = [a,a)`: `r.Overlap(z)` holds exactly when `a` lies in
`[r.Start, r.End)`, and `z.Overlap(r)` holds exactly when `a` lies in
`(r.Start, r.End)`. Hence zero-length regions never overlap at or beyond
boundaries and never overlap each other, but a zero-length region strictly
inside a non-empty region does overlap it in both argument positions
(asymmetrically at the left boundary). -/
theorem overlap_zero_length_spec (r : Region) (a : Int) :
    (Region.Overlap r { Start := a, End := a } = true ↔ r.Start ≤ a ∧ a < r.End) ∧
    (Region.Overlap { Start := a, End := a } r = true ↔ r.Start < a ∧ a < r.End) := by
  simp only [Region.Overlap, Bool.or_eq_true, Bool.and_eq_true, decide_eq_true_eq]
  omega

/-- Claim C7, counterexample. The claim states `A.Union(B) = B.Union(A)`
as region sets for sorted non-overlapping inputs. With the seam
`A = [[0,0)]` and `B = [[0,5)]` (both pass the Go `Check`), `A.Union(B)`
absorbs the seam into `[0,5)` while `B.Union(A)` keeps it: the results
differ even as sets of regions. -/
theorem union_not_commutative_counterexample :
    Regions.Check [{ Start := 0, End := 0 }] = true ∧
    Regions.Check [{ Start := 0, End := 5 }] = true ∧
    Regions.Union [{ Start := 0, End := 0 }] [{ Start := 0, End := 5 }] =
      [{ Start := 0, End := 5 }] ∧
    Regions.Union [{ Start := 0, End := 5 }] [{ Start := 0, End := 0 }] =
      [{ Start := 0, End := 0 }, { Start := 0, End := 5 }] ∧
    ([{ Start := 0, End := 5 }] : Regions) ≠
      [{ Start := 0, End := 0 }, { Start := 0, End := 5 }] := by
  refine ⟨by decide, by decide, ?_, ?_, by decide⟩
  · simp [Regions.Union, Regions.unionLoop, Region.Overlap, Region.Join, Region.Equal]
  · simp [Regions.Union, Regions.unionLoop, Region.Overlap, Region.Join, Region.Equal]

/-- Claim C7, amended: `A.Union(B)` and `B.Union(A)` always cover exactly
the same array indices (for arbitrary operands, in particular for sorted
non-overlapping ones); the region lists themselves may differ when a
zero-length region shares its start with an overlapping region. -/
theorem union_coverage_commutative (A B : Regions) (i : Int) :
    Regions.covers (Regions.Union A B) i = Regions.covers (Regions.Union B A) i := by
  rw [Union_covers, Union_covers, Bool.or_comm]

/-- Claim C8, counterexample. The claim states evaluation never mutates
the input reference. Evaluating a field node over an input that is a
Latent reference calls `AddKey` on it, which appends to the key path
through the pointer receiver: after the call the caller's latent reference
has changed. -/
theorem field_selection_mutates_latent_counterexample :
    (processFieldSelectionLatent ⟨[⟨⟨"$.a"⟩, ["b"]⟩], []⟩ "c").1 ≠
      (⟨[⟨⟨"$.a"⟩, ["b"]⟩], []⟩ : LatentMapRef) := by
  decide

/-- Claim C8, amended: evaluation constructs new references except that
field selection over a Latent reference in the input extends that latent
reference in place, appending the segment name to its key path; the
reference entering the result union is that same mutated object (the
post-call input state and the result member coincide). -/
theorem field_selection_latent_inplace_spec (input : LatentMapRef) (name : String) :
    (processFieldSelectionLatent input name).1 =
      { input with keyPath := input.keyPath ++ [name] } ∧
    (processFieldSelectionLatent input name).2 = (processFieldSelectionLatent input name).1 :=
  ⟨rfl, rfl⟩

/-- Claim C9, counterexample. The claim states `Delete` on Var, Literal
and Latent references returns a typed error, never panics and never
silently succeeds. `LiteralRef.Delete` panics, and `LatentMapRef.Delete`
is a silent no-op success. -/
theorem delete_literal_panics_latent_noop :
    LiteralRef.Delete ⟨Value.vNull⟩ = .panics "Attempt to delete LiteralRef" ∧
    LatentMapRef.Delete ⟨[], []⟩ = .ok () :=
  ⟨rfl, rfl⟩

/-- Claim C9, amended: `Delete` on a Var reference returns a typed error;
`Delete` on a Literal reference panics; `Delete` on a Latent reference
silently succeeds as a no-op. -/
theorem delete_outcomes_spec (v : VarRef) (l : LiteralRef) (lm : LatentMapRef) :
    VarRef.Delete v = .err "Delete not supported for VarRefs" ∧
    LiteralRef.Delete l = .panics "Attempt to delete LiteralRef" ∧
    LatentMapRef.Delete lm = .ok () :=
  ⟨rfl, rfl, rfl⟩

/-- The key loop of `MapRef.Values` keeps, in key order, exactly the
looked-up values of keys that are present in the map with a non-null
stored value (Go map indexing returns the nil interface both for an
absent key and for a stored nil). -/
lemma mapValuesLoop_eq (current : List (String × Value)) (keys : List String) :
    mapValuesLoop current keys =
      keys.filterMap (fun k =>
        match current.find? (fun p => p.1 == k) with
        | none => none
        | some p => if p.2.isNull then none else some p.2) := by
  induction keys with
  | nil => rfl
  | cons k ks ih =>
      rw [mapValuesLoop, List.filterMap_cons]
      cases h : current.find? (fun p => p.1 == k) with
      | none => simp [mapIndex, h, Value.isNull, ih]
      | some p =>
          by_cases hn : p.2.isNull <;> simp [mapIndex, h, hn, ih]

/-- Claim C10: `MapRef.Values` returns, in key order, exactly the values
of selected keys that are present in the map with a non-null value; a
selected key that is absent, or whose stored value is null, contributes
nothing, so the result can be shorter than the key list. -/
theorem mapRef_values_spec (r : MapRef) (current : List (String × Value)) :
    MapRef.Values r current =
      r.keys.filterMap (fun k =>
        match current.find? (fun p => p.1 == k) with
        | none => none
        | some p => if p.2.isNull then none else some p.2) ∧
    (MapRef.Values r current).length ≤ r.keys.length := by
  constructor
  · exact mapValuesLoop_eq current r.keys
  · rw [MapRef.Values, mapValuesLoop_eq]
    exact List.length_filterMap_le _ _
